import Mathlib

/-!
# Verification of the UV Cell Snap core (`src/__init__.py`)

A shallow embedding of the add-on's core: the UV-island detector
(`are_uvs_connected`, `get_uv_island`, the island-collection loop of both
operators) and the grid transformer (the snap loop of
`UVCellSnapOperator.execute` and the offset loop of
`UVCellSnapOffset.execute`).

Modelling conventions:
* Python floats are idealized as exact rationals `ℚ`; the test
  `(uv1 - uv2).length < 0.001` is expressed on squared distances, which is
  equivalent for nonnegative bounds.
* A mesh is its face list (in `bm.faces` order), its edges (each edge given by
  `edge.link_faces`, the list of face indices linked to it) and the names of
  its UV layers.  Faces are addressed by their index in the face list.
* Python's `set.pop()` removes an arbitrary element; the embedding passes an
  explicit `picks` oracle choosing which element is removed at every
  iteration, so the theorems quantify over every possible pop order.
* In-place mutation of loop UVs becomes rebuilding the face list; the operator
  `execute` methods become functions from the selected-object list to a status
  plus the resulting object list.
-/

namespace UVCellSnap

/-- A 2D UV coordinate `(u, v)`. -/
abbrev UVCoord := ℚ × ℚ

/-- One mesh face: the UV coordinates of its corner loops in the configured UV
layer, and the host-owned selection flag `face.select`. -/
structure Face where
  loops : List UVCoord
  select : Bool
deriving DecidableEq

/-- The face used when indexing out of range: no loops, unselected. -/
def defaultFace : Face := ⟨[], false⟩

/-- A mesh: faces in `bm.faces` order; `edges` lists, for each mesh edge, the
face indices linked to it (`edge.link_faces`); `channels` the names of the UV
layers present in `bm.loops.layers.uv`. -/
structure Mesh where
  faces : List Face
  edges : List (List ℕ)
  channels : List String
deriving DecidableEq

def Mesh.numFaces (M : Mesh) : ℕ := M.faces.length

def Mesh.faceAt (M : Mesh) (i : ℕ) : Face := M.faces.getD i defaultFace

/-- `face.select` of face `i`. -/
def isSel (M : Mesh) (i : ℕ) : Bool := (M.faceAt i).select

/-- The proximity tolerance, the literal `0.001` of `are_uvs_connected`. -/
def eps : ℚ := 1 / 1000

/-- Squared Euclidean distance between two UV coordinates. -/
def uvDistSq (a b : UVCoord) : ℚ := (a.1 - b.1) ^ 2 + (a.2 - b.2) ^ 2

/-- `are_uvs_connected(face1, face2, uv_layer)`: some pair of corner UVs of
the two faces lies within distance `eps`. -/
def are_uvs_connected (f g : Face) : Bool :=
  f.loops.any fun a => g.loops.any fun b => decide (uvDistSq a b < eps ^ 2)

/-- The candidate faces enumerated by the double loop
`for edge in face.edges: for linked_face in edge.link_faces` for face `f`. -/
def linkCandidates (M : Mesh) (f : ℕ) : List ℕ :=
  (M.edges.filter fun e => e.contains f).flatMap id

/-- The body of the inner `for linked_face in edge.link_faces:` loop of
`get_uv_island`: add candidate `g` to the island and the work set when it is
selected, not yet in the island, not in `processed_faces`, and UV-connected to
the face `f` being expanded. -/
def addCandidate (M : Mesh) (processed : List ℕ) (f : ℕ)
    (st : List ℕ × List ℕ) (g : ℕ) : List ℕ × List ℕ :=
  if isSel M g && !st.1.contains g && !processed.contains g &&
      are_uvs_connected (M.faceAt f) (M.faceAt g) then
    (st.1 ++ [g], st.2 ++ [g])
  else st

/-- One expansion of a popped face `f` in `get_uv_island`: fold `addCandidate`
over all faces linked to `f` through its edges. -/
def expand (M : Mesh) (processed : List ℕ) (f : ℕ)
    (st : List ℕ × List ℕ) : List ℕ × List ℕ :=
  (linkCandidates M f).foldl (addCandidate M processed f) st

/-- The `while to_process:` loop of `get_uv_island`.  `picks` chooses which
element `set.pop()` removes at each iteration; the fuel bounds the number of
iterations (the caller supplies enough fuel for the loop to run to
completion). -/
def get_uv_island_aux (M : Mesh) (processed : List ℕ) :
    ℕ → List ℕ → List ℕ → List ℕ → List ℕ
  | 0, island, _, _ => island
  | _ + 1, island, [], _ => island
  | fuel + 1, island, w :: ws, picks =>
    let k := picks.headD 0 % (w :: ws).length
    let f := (w :: ws).getD k 0
    let work := (w :: ws).eraseIdx k
    let st := expand M processed f (island, work)
    get_uv_island_aux M processed fuel st.1 st.2 picks.tail

/-- `get_uv_island(start_face, uv_layer)`: all faces connected to the start
face in UV space, given the faces already assigned to earlier islands. -/
def get_uv_island (M : Mesh) (processed : List ℕ) (picks : List ℕ)
    (start : ℕ) : List ℕ :=
  get_uv_island_aux M processed (M.numFaces + 1) [start] [start] picks

/-- The island-collection loop `for face in bm.faces:` of both `execute`
methods, generalized over the face visitation order and the per-island pop
choices. -/
def find_islands_go (M : Mesh) : List ℕ → List (List ℕ) → List ℕ → List (List ℕ)
  | [], _, _ => []
  | i :: order, pickss, processed =>
    if isSel M i && !processed.contains i then
      let isl := get_uv_island M processed (pickss.headD []) i
      isl :: find_islands_go M order pickss.tail (processed ++ isl)
    else find_islands_go M order pickss processed

/-- The islands of a mesh as computed by `execute`: visitation in `bm.faces`
order, default pop choices. -/
def find_islands (M : Mesh) : List (List ℕ) :=
  find_islands_go M (List.range M.numFaces) [] []

/-- `island_uvs`: the flattened UV coordinates of all loops of all faces of an
island. -/
def islandUVs (M : Mesh) (isl : List ℕ) : List UVCoord :=
  (isl.map fun i => (M.faceAt i).loops).flatten

/-- `min` fold of the bounding-box computation.  The source starts from
`math.inf` and folds `min` over all coordinates; on a nonempty list this
equals folding from the first coordinate. -/
def foldMin (a : ℚ) (l : List ℚ) : ℚ := l.foldl min a

/-- `max` fold of the bounding-box computation (source starts at `-math.inf`). -/
def foldMax (a : ℚ) (l : List ℚ) : ℚ := l.foldl max a

/-- The bounding-box center `((bbox_min + bbox_max) / 2)` of a coordinate
list.  The `[]` case is never used by the operators: an empty island has no
coordinates to move, so the source's `nan` center is never written anywhere. -/
def bboxCenter : List UVCoord → ℚ × ℚ
  | [] => (0, 0)
  | u :: us =>
    ((foldMin u.1 (us.map Prod.fst) + foldMax u.1 (us.map Prod.fst)) / 2,
     (foldMin u.2 (us.map Prod.snd) + foldMax u.2 (us.map Prod.snd)) / 2)

/-- `grid_x = [i / columns for i in range(columns)]`. -/
def grid_x (columns : ℕ) : List ℚ :=
  (List.range columns).map fun i : ℕ => (i : ℚ) / (columns : ℚ)

/-- `grid_y = [1.0 - i / rows for i in range(rows)]` (reverse Y for UV space). -/
def grid_y (rows : ℕ) : List ℚ :=
  (List.range rows).map fun i : ℕ => 1 - (i : ℚ) / (rows : ℚ)

/-- `target_x = grid_x[column] + 1 / (2 * columns)` with
`column = cell_index % columns`. -/
def target_x (columns cell_index : ℕ) : ℚ :=
  (grid_x columns).getD (cell_index % columns) 0 + 1 / (2 * (columns : ℚ))

/-- `target_y = grid_y[row] - 1 / (2 * rows)` with
`row = cell_index // columns`. -/
def target_y (columns rows cell_index : ℕ) : ℚ :=
  (grid_y rows).getD (cell_index / columns) 0 - 1 / (2 * (rows : ℚ))

/-- The translation vector `(target - bbox_center)` for one island. -/
def snapDelta (tx ty : ℚ) (uvs : List UVCoord) : ℚ × ℚ :=
  (tx - (bboxCenter uvs).1, ty - (bboxCenter uvs).2)

/-- Translate every loop UV of a face by `d` (the `uv.x += offset_x;
uv.y += offset_y` writes restricted to one face). -/
def translateFace (d : ℚ × ℚ) (f : Face) : Face :=
  ⟨f.loops.map fun a => (a.1 + d.1, a.2 + d.2), f.select⟩

/-- Rebuild a face list, applying `g` to exactly the faces whose index (counted
from `k`) belongs to the island. -/
def updFaces (isl : List ℕ) (g : Face → Face) : ℕ → List Face → List Face
  | _, [] => []
  | k, f :: fs => (if isl.contains k then g f else f) :: updFaces isl g (k + 1) fs

/-- The island-level snap transform: compute the bounding-box center of the
island's coordinates and translate every coordinate so the center lands on
`(tx, ty)`.  An empty coordinate list performs no writes. -/
def snapUVList (tx ty : ℚ) (uvs : List UVCoord) : List UVCoord :=
  match uvs with
  | [] => []
  | u :: us =>
    let d := snapDelta tx ty (u :: us)
    (u :: us).map fun a => (a.1 + d.1, a.2 + d.2)

/-- The `# Move each island` loop of `UVCellSnapOperator.execute`: islands are
processed sequentially, each translated by its own delta. -/
def snapIslandsGo (tx ty : ℚ) : List (List ℕ) → Mesh → Mesh
  | [], M => M
  | isl :: rest, M =>
    match islandUVs M isl with
    | [] => snapIslandsGo tx ty rest M
    | u :: us =>
      let d := snapDelta tx ty (u :: us)
      snapIslandsGo tx ty rest ⟨updFaces isl (translateFace d) 0 M.faces, M.edges, M.channels⟩

/-- The per-mesh body of `UVCellSnapOperator.execute` after the channel check:
detect islands, then move each to the target point. -/
def snapMeshOp (tx ty : ℚ) (M : Mesh) : Mesh :=
  snapIslandsGo tx ty (find_islands M) M

/-- The three persisted preferences of `UVCellSnapPreferences`. -/
structure Prefs where
  uv_channel : String
  grid_columns : ℕ
  grid_rows : ℕ
deriving DecidableEq

/-- A member of `context.selected_objects`: its type flag
(`obj.type == 'MESH'`) and its mesh data. -/
structure Obj where
  isMesh : Bool
  mesh : Mesh
deriving DecidableEq

/-- Operator return statuses. -/
inductive Status where
  | FINISHED
  | CANCELLED
deriving DecidableEq

/-- The `for obj in context.selected_objects:` loop of
`UVCellSnapOperator.execute`: non-mesh objects are skipped; a mesh without the
configured channel reports an error and returns `CANCELLED` immediately,
leaving it and every later object untouched. -/
def snapGo (p : Prefs) (tx ty : ℚ) : List Obj → Status × List Obj
  | [] => (Status.FINISHED, [])
  | o :: os =>
    if o.isMesh = false then
      let r := snapGo p tx ty os
      (r.1, o :: r.2)
    else if o.mesh.channels.contains p.uv_channel = false then
      (Status.CANCELLED, o :: os)
    else
      let r := snapGo p tx ty os
      (r.1, ⟨o.isMesh, snapMeshOp tx ty o.mesh⟩ :: r.2)

/-- `UVCellSnapOperator.execute`: bounds check on `cell_index` first
(`cell_index` is a `min=0` integer property, hence `ℕ`), then the object
loop. -/
def snapExecute (p : Prefs) (cell_index : ℕ) (objs : List Obj) :
    Status × List Obj :=
  if p.grid_columns * p.grid_rows ≤ cell_index then (Status.CANCELLED, objs)
  else
    snapGo p (target_x p.grid_columns cell_index)
      (target_y p.grid_columns p.grid_rows cell_index) objs

/-- `clamped_offset_x = max(0, min(1, 1 / prefs.grid_columns))`. -/
def clampedOffsetX (columns : ℕ) : ℚ := max 0 (min 1 (1 / (columns : ℚ)))

/-- `clamped_offset_y = max(0, min(1, 1 / prefs.grid_rows))`. -/
def clampedOffsetY (rows : ℕ) : ℚ := max 0 (min 1 (1 / (rows : ℚ)))

/-- The body of `for uv in island:` in `UVCellSnapOffset.execute`: the guard
chain on the direction string and the island's bounding-box center, applied to
one coordinate. -/
def offsetUV (direction : String) (cx cy dx dy : ℚ) (a : UVCoord) : UVCoord :=
  if direction = "up" ∧ cy + dy < 1 then (a.1, a.2 + dy)
  else if direction = "down" ∧ 0 < cy - dy then (a.1, a.2 - dy)
  else if direction = "right" ∧ cx + dx < 1 then (a.1 + dx, a.2)
  else if direction = "left" ∧ 0 < cx - dx then (a.1 - dx, a.2)
  else a

/-- Apply the offset guard chain to every loop UV of one face. -/
def offsetFace (direction : String) (cx cy dx dy : ℚ) (f : Face) : Face :=
  ⟨f.loops.map (offsetUV direction cx cy dx dy), f.select⟩

/-- The island-level offset transform of `UVCellSnapOffset.execute`. -/
def offsetUVList (direction : String) (dx dy : ℚ) (uvs : List UVCoord) :
    List UVCoord :=
  match uvs with
  | [] => []
  | u :: us =>
    let c := bboxCenter (u :: us)
    (u :: us).map (offsetUV direction c.1 c.2 dx dy)

/-- The `# Move each island` loop of `UVCellSnapOffset.execute`. -/
def offsetIslandsGo (direction : String) (dx dy : ℚ) :
    List (List ℕ) → Mesh → Mesh
  | [], M => M
  | isl :: rest, M =>
    match islandUVs M isl with
    | [] => offsetIslandsGo direction dx dy rest M
    | u :: us =>
      let c := bboxCenter (u :: us)
      offsetIslandsGo direction dx dy rest
        ⟨updFaces isl (offsetFace direction c.1 c.2 dx dy) 0 M.faces, M.edges, M.channels⟩

/-- The per-mesh body of `UVCellSnapOffset.execute` after the channel check. -/
def offsetMeshOp (direction : String) (dx dy : ℚ) (M : Mesh) : Mesh :=
  offsetIslandsGo direction dx dy (find_islands M) M

/-- The object loop of `UVCellSnapOffset.execute` (same error structure as the
snap operator). -/
def offsetGo (p : Prefs) (direction : String) : List Obj → Status × List Obj
  | [] => (Status.FINISHED, [])
  | o :: os =>
    if o.isMesh = false then
      let r := offsetGo p direction os
      (r.1, o :: r.2)
    else if o.mesh.channels.contains p.uv_channel = false then
      (Status.CANCELLED, o :: os)
    else
      let r := offsetGo p direction os
      (r.1, ⟨o.isMesh,
        offsetMeshOp direction (clampedOffsetX p.grid_columns)
          (clampedOffsetY p.grid_rows) o.mesh⟩ :: r.2)

/-- `UVCellSnapOffset.execute`. -/
def offsetExecute (p : Prefs) (direction : String) (objs : List Obj) :
    Status × List Obj :=
  offsetGo p direction objs

/-- Faces `i` and `j` share a mesh edge. -/
def adjacent (M : Mesh) (i j : ℕ) : Prop :=
  ∃ e ∈ M.edges, i ∈ e ∧ j ∈ e

/-- One step of the traversal relation used by `get_uv_island`: the target face
is selected, shares an edge with the source, and is UV-connected to it. -/
def uvStep (M : Mesh) (i j : ℕ) : Prop :=
  isSel M j = true ∧ adjacent M i j ∧
    are_uvs_connected (M.faceAt i) (M.faceAt j) = true

/-- `i` and `j` belong to the same UV island: `i` is selected and `j` is
reachable from `i` through selected, edge-sharing, UV-connected faces. -/
def SameIsland (M : Mesh) (i j : ℕ) : Prop :=
  isSel M i = true ∧ Relation.ReflTransGen (uvStep M) i j

/-- One step of the traversal restricted to faces outside `processed_faces`:
exactly the condition under which `get_uv_island` adds a face to the island
being grown. -/
def stepP (M : Mesh) (processed : List ℕ) (f g : ℕ) : Prop :=
  uvStep M f g ∧ g ∉ processed

/-- Reachability from a seed through faces outside `processed_faces`. -/
def ReachP (M : Mesh) (processed : List ℕ) (s j : ℕ) : Prop :=
  Relation.ReflTransGen (stepP M processed) s j

/-- The invariant maintained for `processed_faces` across islands: it contains
only selected faces and is closed under the traversal relation. -/
def ProcClosed (M : Mesh) (processed : List ℕ) : Prop :=
  ∀ x ∈ processed, isSel M x = true ∧ ∀ y, uvStep M x y → y ∈ processed

/-- What one pass of the snap object loop does to an object it reaches. -/
def snapObjResult (tx ty : ℚ) (o : Obj) : Obj :=
  if o.isMesh then ⟨o.isMesh, snapMeshOp tx ty o.mesh⟩ else o

/-- The object used for out-of-range indexing in frame statements. -/
def defaultObj : Obj := ⟨false, ⟨[], [], []⟩⟩

/-! ## Concrete sample inputs used by witnesses and counterexamples -/

/-- A one-face mesh whose single island has bounding box `[0, 0.2] × [0, 0.2]`
(center `(0.1, 0.1)`), carrying the default channel. -/
def sampleMesh1 : Mesh := ⟨[⟨[(0, 0), (1/5, 1/5)], true⟩], [], ["ch3"]⟩

/-- A selected face with UVs near the origin. -/
def faceA : Face := ⟨[(0, 0), (1, 0), (0, 1)], true⟩

/-- A selected face with UVs far from the origin. -/
def faceB : Face := ⟨[(10, 10), (11, 10), (10, 11)], true⟩

/-- A selected bridge face with corners near both `faceA` and `faceB`. -/
def faceC : Face := ⟨[(0, 0), (10, 10), (5, 5)], true⟩

/-- A mesh where faces 0 and 1 are mesh-adjacent with distant UVs at every
corner pair, while face 2 is mesh-adjacent and UV-close to both. -/
def seamMesh : Mesh := ⟨[faceA, faceB, faceC], [[0, 1], [0, 2], [1, 2]], ["ch3"]⟩

/-- The default preferences: channel `"ch3"`, a 4 × 2 grid. -/
def samplePrefs : Prefs := ⟨"ch3", 4, 2⟩

/-- A mesh object lacking channel `"ch3"` (it has another layer). -/
def objNoChannel : Obj := ⟨true, ⟨[⟨[(0, 0)], true⟩], [], ["UVMap"]⟩⟩

/-- A mesh object carrying channel `"ch3"` whose selected face a snap to cell 0
would move. -/
def objWithChannel : Obj := ⟨true, ⟨[⟨[(1/2, 1/2)], true⟩], [], ["ch3"]⟩⟩

/-- A two-face mesh whose faces share an edge and a UV corner, forming one
island. -/
def sampleMesh2 : Mesh :=
  ⟨[⟨[(0, 0), (1, 0)], true⟩, ⟨[(0, 0), (0, 1)], true⟩], [[0, 1]], ["ch3"]⟩

/-- An island whose bounding-box center is `(0.2, 0.9)`, for the boundary
rejection example. -/
def boundaryIsland : List UVCoord := [(1/10, 4/5), (3/10, 1)]

/-- An island centered at `(-1, -1)`, outside the unit square. -/
def outsideIsland : List UVCoord := [(-3/2, -3/2), (-1/2, -1/2)]

/-- A non-mesh object in the selection (its mesh data is never touched). -/
def objNonMesh : Obj := ⟨false, sampleMesh1⟩

/-! ## Basic symmetry lemmas about the connectivity relation -/

lemma uvDistSq_comm (a b : UVCoord) : uvDistSq a b = uvDistSq b a := by
  unfold uvDistSq; ring

lemma are_uvs_connected_iff (f g : Face) :
    are_uvs_connected f g = true ↔
      ∃ a ∈ f.loops, ∃ b ∈ g.loops, uvDistSq a b < eps ^ 2 := by
  simp [are_uvs_connected]

lemma are_uvs_connected_comm (f g : Face) :
    are_uvs_connected f g = are_uvs_connected g f := by
  apply Bool.eq_iff_iff.mpr
  rw [are_uvs_connected_iff, are_uvs_connected_iff]
  constructor
  · rintro ⟨a, ha, b, hb, hd⟩
    exact ⟨b, hb, a, ha, by rwa [uvDistSq_comm]⟩
  · rintro ⟨a, ha, b, hb, hd⟩
    exact ⟨b, hb, a, ha, by rwa [uvDistSq_comm]⟩

lemma adjacent_comm (M : Mesh) {i j : ℕ} (h : adjacent M i j) : adjacent M j i := by
  obtain ⟨e, he, h1, h2⟩ := h
  exact ⟨e, he, h2, h1⟩

lemma uvStep_symm (M : Mesh) {i j : ℕ} (hi : isSel M i = true)
    (h : uvStep M i j) : uvStep M j i := by
  obtain ⟨hs, hadj, hconn⟩ := h
  refine ⟨hi, adjacent_comm M hadj, ?_⟩
  rw [are_uvs_connected_comm]
  exact hconn

lemma sameIsland_sel_right {M : Mesh} {i j : ℕ} (h : SameIsland M i j) :
    isSel M j = true := by
  obtain ⟨hi, hr⟩ := h
  induction hr with
  | refl => exact hi
  | tail _ hstep _ => exact hstep.1

lemma sameIsland_refl {M : Mesh} {i : ℕ} (hi : isSel M i = true) :
    SameIsland M i i := ⟨hi, Relation.ReflTransGen.refl⟩

lemma sameIsland_symm {M : Mesh} {i j : ℕ} (h : SameIsland M i j) :
    SameIsland M j i := by
  obtain ⟨hi, hr⟩ := h
  refine ⟨sameIsland_sel_right ⟨hi, hr⟩, ?_⟩
  induction hr with
  | refl => exact Relation.ReflTransGen.refl
  | tail hab hstep ih =>
    have hb := sameIsland_sel_right ⟨hi, hab⟩
    exact Relation.ReflTransGen.head (uvStep_symm M hb hstep) ih

lemma sameIsland_trans {M : Mesh} {i j k : ℕ} (h1 : SameIsland M i j)
    (h2 : SameIsland M j k) : SameIsland M i k :=
  ⟨h1.1, h1.2.trans h2.2⟩

/-! ## Bounding box and translation lemmas -/

lemma foldMin_add (c : ℚ) :
    ∀ (l : List ℚ) (a : ℚ), foldMin (a + c) (l.map (· + c)) = foldMin a l + c := by
  intro l
  induction l with
  | nil => intro a; rfl
  | cons x xs ih =>
    intro a
    simp only [List.map_cons, foldMin, List.foldl_cons] at *
    rw [min_add_add_right]
    exact ih (min a x)

lemma foldMax_add (c : ℚ) :
    ∀ (l : List ℚ) (a : ℚ), foldMax (a + c) (l.map (· + c)) = foldMax a l + c := by
  intro l
  induction l with
  | nil => intro a; rfl
  | cons x xs ih =>
    intro a
    simp only [List.map_cons, foldMax, List.foldl_cons] at *
    rw [max_add_add_right]
    exact ih (max a x)

lemma map_fst_translate (d : ℚ × ℚ) (l : List UVCoord) :
    (l.map fun a => ((a.1 + d.1, a.2 + d.2) : UVCoord)).map Prod.fst =
      (l.map Prod.fst).map (· + d.1) := by
  simp [List.map_map, Function.comp]

lemma map_snd_translate (d : ℚ × ℚ) (l : List UVCoord) :
    (l.map fun a => ((a.1 + d.1, a.2 + d.2) : UVCoord)).map Prod.snd =
      (l.map Prod.snd).map (· + d.2) := by
  simp [List.map_map, Function.comp]

lemma bboxCenter_translate (d : ℚ × ℚ) (u : UVCoord) (us : List UVCoord) :
    bboxCenter ((u :: us).map fun a => (a.1 + d.1, a.2 + d.2)) =
      ((bboxCenter (u :: us)).1 + d.1, (bboxCenter (u :: us)).2 + d.2) := by
  simp only [List.map_cons, bboxCenter]
  rw [map_fst_translate, map_snd_translate, foldMin_add, foldMax_add,
    foldMin_add, foldMax_add]
  refine Prod.ext ?_ ?_ <;> dsimp <;> ring

lemma bboxCenter_snapUVList (tx ty : ℚ) (u : UVCoord) (us : List UVCoord) :
    bboxCenter (snapUVList tx ty (u :: us)) = (tx, ty) := by
  simp only [snapUVList]
  rw [bboxCenter_translate]
  simp only [snapDelta]
  refine Prod.ext ?_ ?_ <;> dsimp <;> ring

/-! ## Per-coordinate offset lemmas -/

lemma offsetUV_dist (direction : String) (cx cy dx dy : ℚ) (a b : UVCoord) :
    uvDistSq (offsetUV direction cx cy dx dy a)
      (offsetUV direction cx cy dx dy b) = uvDistSq a b := by
  unfold offsetUV
  split_ifs <;> first
  | rfl
  | (unfold uvDistSq; dsimp; ring)

lemma offsetUV_not_dir {direction : String}
    (h1 : direction ≠ "up") (h2 : direction ≠ "down")
    (h3 : direction ≠ "left") (h4 : direction ≠ "right")
    (cx cy dx dy : ℚ) (a : UVCoord) :
    offsetUV direction cx cy dx dy a = a := by
  simp [offsetUV, h1, h2, h3, h4]

/-! ## Face-list update lemmas -/

lemma updFaces_length (isl : List ℕ) (g : Face → Face) :
    ∀ (k : ℕ) (fs : List Face), (updFaces isl g k fs).length = fs.length := by
  intro k fs
  induction fs generalizing k with
  | nil => rfl
  | cons f fs ih => simp [updFaces, ih]

lemma updFaces_id (isl : List ℕ) (g : Face → Face) (hg : ∀ f, g f = f) :
    ∀ (k : ℕ) (fs : List Face), updFaces isl g k fs = fs := by
  intro k fs
  induction fs generalizing k with
  | nil => rfl
  | cons f fs ih => simp [updFaces, hg, ih]

lemma updFaces_getD (isl : List ℕ) (g : Face → Face) :
    ∀ (k : ℕ) (fs : List Face) (i : ℕ),
      (updFaces isl g k fs).getD i defaultFace =
        if k + i ∈ isl ∧ i < fs.length then g (fs.getD i defaultFace)
        else fs.getD i defaultFace := by
  intro k fs
  induction fs generalizing k with
  | nil => intro i; simp [updFaces]
  | cons f fs ih =>
    intro i
    cases i with
    | zero =>
      by_cases h : k ∈ isl <;> simp [updFaces, h]
    | succ n =>
      have harith : k + 1 + n = k + (n + 1) := by omega
      simp only [updFaces, List.getD_cons_succ, List.length_cons]
      rw [ih (k + 1) n, harith]
      rcases Nat.lt_or_ge n fs.length with hl | hl
      · have hl2 : n + 1 < fs.length + 1 := by omega
        by_cases hc : k + (n + 1) ∈ isl <;> simp [hc, hl, hl2]
      · have hl1 : ¬ n < fs.length := by omega
        have hl2 : ¬ n + 1 < fs.length + 1 := by omega
        simp [hl1, hl2]

lemma faceAt_updMesh (M : Mesh) (isl : List ℕ) (g : Face → Face)
    (E : List (List ℕ)) (C : List String) (i : ℕ) :
    (Mesh.mk (updFaces isl g 0 M.faces) E C).faceAt i =
      if i ∈ isl ∧ i < M.numFaces then g (M.faceAt i) else M.faceAt i := by
  have := updFaces_getD isl g 0 M.faces i
  simpa [Mesh.faceAt, Mesh.numFaces] using this

/-! ## List helpers for the worklist traversal -/

lemma getD_mem_of_lt {l : List ℕ} {k : ℕ} (h : k < l.length) : l.getD k 0 ∈ l := by
  rw [List.getD_eq_getElem _ _ h]
  exact List.getElem_mem h

lemma mem_eraseIdx_of_ne :
    ∀ (l : List ℕ) (k : ℕ), k < l.length →
      ∀ x ∈ l, x ≠ l.getD k 0 → x ∈ l.eraseIdx k := by
  intro l
  induction l with
  | nil => simp
  | cons a l ih =>
    intro k hk x hx hne
    cases k with
    | zero =>
      rw [List.getD_cons_zero] at hne
      rw [List.eraseIdx_cons_zero]
      rcases List.mem_cons.mp hx with h | h
      · exact absurd h hne
      · exact h
    | succ n =>
      rw [List.getD_cons_succ] at hne
      rw [List.eraseIdx_cons_succ]
      rcases List.mem_cons.mp hx with h | h
      · exact h ▸ List.mem_cons_self a _
      · exact List.mem_cons_of_mem a (ih n (by simpa using hk) x h hne)

lemma getD_not_mem_eraseIdx :
    ∀ (l : List ℕ), l.Nodup → ∀ (k : ℕ), k < l.length →
      l.getD k 0 ∉ l.eraseIdx k := by
  intro l
  induction l with
  | nil => simp
  | cons a l ih =>
    intro hnd k hk
    cases k with
    | zero =>
      rw [List.getD_cons_zero, List.eraseIdx_cons_zero]
      exact (List.nodup_cons.mp hnd).1
    | succ n =>
      rw [List.getD_cons_succ, List.eraseIdx_cons_succ]
      intro hmem
      rcases List.mem_cons.mp hmem with h | h
      · have hmem2 : l.getD n 0 ∈ l := getD_mem_of_lt (by simpa using hk)
        rw [h] at hmem2
        exact (List.nodup_cons.mp hnd).1 hmem2
      · exact ih (List.nodup_cons.mp hnd).2 n (by simpa using hk) h

lemma isSel_lt_numFaces {M : Mesh} {i : ℕ} (h : isSel M i = true) :
    i < M.numFaces := by
  by_contra hge
  unfold Mesh.numFaces at hge
  have hdef : M.faceAt i = defaultFace := by
    unfold Mesh.faceAt
    exact List.getD_eq_default _ _ (by omega)
  rw [isSel, hdef] at h
  exact Bool.false_ne_true h

lemma nodup_sel_length_le {M : Mesh} {l : List ℕ} (hnd : l.Nodup)
    (hsel : ∀ x ∈ l, isSel M x = true) : l.length ≤ M.numFaces := by
  have hsub : l ⊆ List.range M.numFaces := fun x hx =>
    List.mem_range.mpr (isSel_lt_numFaces (hsel x hx))
  have := (List.subperm_of_subset hnd hsub).length_le
  simpa using this

/-! ## The expansion step of `get_uv_island` -/

lemma mem_linkCandidates_iff (M : Mesh) (f g : ℕ) :
    g ∈ linkCandidates M f ↔ adjacent M f g := by
  simp only [linkCandidates, List.mem_flatMap, List.mem_filter, id, adjacent]
  constructor
  · rintro ⟨e, ⟨he, hf⟩, hg⟩
    exact ⟨e, he, by simpa using hf, hg⟩
  · rintro ⟨e, he, hf, hg⟩
    exact ⟨e, ⟨he, by simpa using hf⟩, hg⟩

lemma addCandidate_cond_iff (M : Mesh) (processed : List ℕ) (f : ℕ)
    (isl : List ℕ) (c : ℕ) :
    (isSel M c && !isl.contains c && !processed.contains c &&
      are_uvs_connected (M.faceAt f) (M.faceAt c)) = true ↔
    (isSel M c = true ∧ c ∉ isl ∧ c ∉ processed ∧
      are_uvs_connected (M.faceAt f) (M.faceAt c) = true) := by
  simp [Bool.and_eq_true]
  tauto

lemma foldl_addCandidate_spec (M : Mesh) (processed : List ℕ) (f : ℕ) :
    ∀ (cs isl work : List ℕ),
      ∃ added : List ℕ,
        cs.foldl (addCandidate M processed f) (isl, work) =
          (isl ++ added, work ++ added) ∧
        (∀ g ∈ added, g ∉ isl ∧ isSel M g = true ∧ g ∉ processed ∧
          are_uvs_connected (M.faceAt f) (M.faceAt g) = true ∧ g ∈ cs) ∧
        added.Nodup ∧
        (∀ g ∈ cs, isSel M g = true → g ∉ processed →
          are_uvs_connected (M.faceAt f) (M.faceAt g) = true →
          g ∈ isl ++ added) := by
  intro cs
  induction cs with
  | nil =>
    intro isl work
    exact ⟨[], by simp, by simp, List.nodup_nil, by simp⟩
  | cons c cs ih =>
    intro isl work
    by_cases hc : (isSel M c && !isl.contains c && !processed.contains c &&
        are_uvs_connected (M.faceAt f) (M.faceAt c)) = true
    · obtain ⟨hcsel, hcisl, hcp, hcconn⟩ := (addCandidate_cond_iff M processed f isl c).mp hc
      obtain ⟨added, heq, hadd, hnd, hcl⟩ := ih (isl ++ [c]) (work ++ [c])
      refine ⟨c :: added, ?_, ?_, ?_, ?_⟩
      · have hstep : addCandidate M processed f (isl, work) c =
            (isl ++ [c], work ++ [c]) := by
          simp only [addCandidate, hc, if_true]
        simp only [List.foldl_cons, hstep, heq]
        simp
      · intro g hg
        rcases List.mem_cons.mp hg with h | h
        · subst h
          exact ⟨hcisl, hcsel, hcp, hcconn, List.mem_cons_self _ _⟩
        · obtain ⟨hgisl, hgsel, hgp, hgconn, hgcs⟩ := hadd g h
          refine ⟨fun hmem => hgisl (List.mem_append.mpr (Or.inl hmem)),
            hgsel, hgp, hgconn, List.mem_cons_of_mem _ hgcs⟩
      · refine List.nodup_cons.mpr ⟨fun hmem => ?_, hnd⟩
        have := (hadd c hmem).1
        exact this (List.mem_append.mpr (Or.inr (List.mem_cons_self c [])))
      · intro g hg hgsel hgp hgconn
        rcases List.mem_cons.mp hg with h | h
        · subst h
          exact List.mem_append.mpr (Or.inr (List.mem_cons_self _ _))
        · have := hcl g h hgsel hgp hgconn
          rcases List.mem_append.mp this with h2 | h2
          · rcases List.mem_append.mp h2 with h3 | h3
            · exact List.mem_append.mpr (Or.inl h3)
            · simp only [List.mem_singleton] at h3
              subst h3
              exact List.mem_append.mpr (Or.inr (List.mem_cons_self _ _))
          · exact List.mem_append.mpr (Or.inr (List.mem_cons_of_mem _ h2))
    · obtain ⟨added, heq, hadd, hnd, hcl⟩ := ih isl work
      refine ⟨added, ?_, ?_, hnd, ?_⟩
      · have hstep : addCandidate M processed f (isl, work) c = (isl, work) := by
          unfold addCandidate
          exact if_neg hc
        simp only [List.foldl_cons, hstep, heq]
      · intro g hg
        obtain ⟨hgisl, hgsel, hgp, hgconn, hgcs⟩ := hadd g hg
        exact ⟨hgisl, hgsel, hgp, hgconn, List.mem_cons_of_mem _ hgcs⟩
      · intro g hg hgsel hgp hgconn
        rcases List.mem_cons.mp hg with h | h
        · subst h
          have hcisl : g ∈ isl := by
            by_contra hni
            exact hc ((addCandidate_cond_iff M processed f isl g).mpr
              ⟨hgsel, hni, hgp, hgconn⟩)
          exact List.mem_append.mpr (Or.inl hcisl)
        · exact hcl g h hgsel hgp hgconn

/-! ## Correctness of the `get_uv_island` worklist traversal -/

lemma get_uv_island_aux_cons (M : Mesh) (processed : List ℕ) (fuel : ℕ)
    (island : List ℕ) (w : ℕ) (ws picks : List ℕ) :
    get_uv_island_aux M processed (fuel + 1) island (w :: ws) picks =
      get_uv_island_aux M processed fuel
        (expand M processed ((w :: ws).getD (picks.headD 0 % (w :: ws).length) 0)
          (island, (w :: ws).eraseIdx (picks.headD 0 % (w :: ws).length))).1
        (expand M processed ((w :: ws).getD (picks.headD 0 % (w :: ws).length) 0)
          (island, (w :: ws).eraseIdx (picks.headD 0 % (w :: ws).length))).2
        picks.tail := rfl

lemma get_uv_island_aux_spec (M : Mesh) (processed : List ℕ) (s : ℕ) :
    ∀ (fuel : ℕ) (isl work picks : List ℕ),
      isl.Nodup →
      work.Nodup →
      (∀ x ∈ work, x ∈ isl) →
      s ∈ isl →
      (∀ x ∈ isl, isSel M x = true ∧ x ∉ processed) →
      (∀ j ∈ isl, ReachP M processed s j) →
      (∀ f ∈ isl, f ∉ work → ∀ g, stepP M processed f g → g ∈ isl) →
      M.numFaces + 1 + work.length ≤ fuel + isl.length →
      (get_uv_island_aux M processed fuel isl work picks).Nodup ∧
      s ∈ get_uv_island_aux M processed fuel isl work picks ∧
      (∀ x ∈ get_uv_island_aux M processed fuel isl work picks,
        isSel M x = true ∧ x ∉ processed) ∧
      (∀ j ∈ get_uv_island_aux M processed fuel isl work picks,
        ReachP M processed s j) ∧
      (∀ f ∈ get_uv_island_aux M processed fuel isl work picks,
        ∀ g, stepP M processed f g →
          g ∈ get_uv_island_aux M processed fuel isl work picks) := by
  intro fuel
  induction fuel with
  | zero =>
    intro isl work picks h1 _ _ _ h5 _ _ hm
    exfalso
    have hlen : isl.length ≤ M.numFaces :=
      nodup_sel_length_le h1 (fun x hx => (h5 x hx).1)
    omega
  | succ fuel ih =>
    intro isl work picks h1 h2 h3 h4 h5 h6 h7 hm
    cases work with
    | nil =>
      simp only [get_uv_island_aux]
      exact ⟨h1, h4, h5, h6, fun f hf g hg => h7 f hf (by simp) g hg⟩
    | cons w ws =>
      have hklt : picks.headD 0 % (w :: ws).length < (w :: ws).length :=
        Nat.mod_lt _ (by simp)
      obtain ⟨added, heq, hadd, haddnd, hclos⟩ :=
        foldl_addCandidate_spec M processed
          ((w :: ws).getD (picks.headD 0 % (w :: ws).length) 0)
          (linkCandidates M ((w :: ws).getD (picks.headD 0 % (w :: ws).length) 0))
          isl ((w :: ws).eraseIdx (picks.headD 0 % (w :: ws).length))
      have heq2 : expand M processed
          ((w :: ws).getD (picks.headD 0 % (w :: ws).length) 0)
          (isl, (w :: ws).eraseIdx (picks.headD 0 % (w :: ws).length)) =
          (isl ++ added,
            (w :: ws).eraseIdx (picks.headD 0 % (w :: ws).length) ++ added) := by
        unfold expand
        exact heq
      rw [get_uv_island_aux_cons, heq2]
      set f := (w :: ws).getD (picks.headD 0 % (w :: ws).length) 0 with hfdef
      set work1 := (w :: ws).eraseIdx (picks.headD 0 % (w :: ws).length) with hwdef
      have hfmem : f ∈ w :: ws := getD_mem_of_lt hklt
      have hfisl : f ∈ isl := h3 f hfmem
      have hw1nd : work1.Nodup := (List.eraseIdx_sublist _ _).nodup h2
      have hw1sub : ∀ x ∈ work1, x ∈ w :: ws := fun x hx =>
        (List.eraseIdx_sublist (w :: ws) _).subset hx
      have hfw1 : f ∉ work1 := getD_not_mem_eraseIdx _ h2 _ hklt
      have i1 : (isl ++ added).Nodup :=
        h1.append haddnd (fun a ha hb => (hadd a hb).1 ha)
      have i2 : (work1 ++ added).Nodup :=
        hw1nd.append haddnd
          (fun a ha hb => (hadd a hb).1 (h3 a (hw1sub a ha)))
      have i3 : ∀ x ∈ work1 ++ added, x ∈ isl ++ added := by
        intro x hx
        rcases List.mem_append.mp hx with h | h
        · exact List.mem_append.mpr (Or.inl (h3 x (hw1sub x h)))
        · exact List.mem_append.mpr (Or.inr h)
      have i4 : s ∈ isl ++ added := List.mem_append.mpr (Or.inl h4)
      have i5 : ∀ x ∈ isl ++ added, isSel M x = true ∧ x ∉ processed := by
        intro x hx
        rcases List.mem_append.mp hx with h | h
        · exact h5 x h
        · exact ⟨(hadd x h).2.1, (hadd x h).2.2.1⟩
      have i6 : ∀ j ∈ isl ++ added, ReachP M processed s j := by
        intro j hj
        rcases List.mem_append.mp hj with h | h
        · exact h6 j h
        · obtain ⟨_, hjsel, hjp, hjconn, hjcs⟩ := hadd j h
          have hadj : adjacent M f j := (mem_linkCandidates_iff M f j).mp hjcs
          exact (h6 f hfisl).tail ⟨⟨hjsel, hadj, hjconn⟩, hjp⟩
      have i7 : ∀ x ∈ isl ++ added, x ∉ work1 ++ added →
          ∀ g, stepP M processed x g → g ∈ isl ++ added := by
        intro x hx hnw g hg
        rcases List.mem_append.mp hx with h | h
        · by_cases hxf : x = f
          · obtain ⟨⟨hgsel, hgadj, hgconn⟩, hgp⟩ := hg
            rw [hxf] at hgadj hgconn
            exact hclos g ((mem_linkCandidates_iff M f g).mpr hgadj) hgsel hgp hgconn
          · have hxw1 : x ∉ work1 := fun hmem =>
              hnw (List.mem_append.mpr (Or.inl hmem))
            have hxw : x ∉ w :: ws := by
              intro hmem
              exact hxw1 (mem_eraseIdx_of_ne (w :: ws) _ hklt x hmem hxf)
            exact List.mem_append.mpr (Or.inl (h7 x h hxw g hg))
        · exact absurd (List.mem_append.mpr (Or.inr h)) hnw
      have imeasure : M.numFaces + 1 + (work1 ++ added).length ≤
          fuel + (isl ++ added).length := by
        have hl1 : work1.length = (w :: ws).length - 1 := by
          rw [hwdef, List.length_eraseIdx, if_pos hklt]
        have hl2 : (work1 ++ added).length = work1.length + added.length :=
          List.length_append _ _
        have hl3 : (isl ++ added).length = isl.length + added.length :=
          List.length_append _ _
        have hl4 : (w :: ws).length = ws.length + 1 := List.length_cons _ _
        omega
      exact ih (isl ++ added) (work1 ++ added) picks.tail i1 i2 i3 i4 i5 i6 i7 imeasure

lemma reachP_not_processed {M : Mesh} {processed : List ℕ} {s : ℕ}
    (hsp : s ∉ processed) {b : ℕ} (h : ReachP M processed s b) :
    b ∉ processed := by
  induction h with
  | refl => exact hsp
  | tail _ hstep _ => exact hstep.2

lemma get_uv_island_spec (M : Mesh) (processed picks : List ℕ) (s : ℕ)
    (hs : isSel M s = true) (hsp : s ∉ processed) :
    (get_uv_island M processed picks s).Nodup ∧
    (∀ j, j ∈ get_uv_island M processed picks s ↔ ReachP M processed s j) := by
  have hspec := get_uv_island_aux_spec M processed s (M.numFaces + 1) [s] [s] picks
    (List.nodup_singleton s) (List.nodup_singleton s)
    (fun x hx => hx) (List.mem_singleton_self s)
    (fun x hx => by
      rw [List.mem_singleton] at hx
      subst hx
      exact ⟨hs, hsp⟩)
    (fun j hj => by
      rw [List.mem_singleton] at hj
      subst hj
      exact Relation.ReflTransGen.refl)
    (fun x hx hnw => absurd hx hnw)
    (by simp)
  obtain ⟨hnd, hsmem, _, hreach, hclosed⟩ := hspec
  refine ⟨hnd, fun j => ⟨fun hj => hreach j hj, fun hr => ?_⟩⟩
  unfold get_uv_island
  induction hr with
  | refl => exact hsmem
  | tail _ hstep ihr => exact hclosed _ ihr _ hstep

/-! ## From restricted reachability to island membership -/

lemma reachP_iff_sameIsland {M : Mesh} {processed : List ℕ}
    (hP : ProcClosed M processed) {s : ℕ} (hs : isSel M s = true)
    (hsp : s ∉ processed) (j : ℕ) :
    ReachP M processed s j ↔ SameIsland M s j := by
  constructor
  · intro h
    refine ⟨hs, ?_⟩
    induction h with
    | refl => exact Relation.ReflTransGen.refl
    | tail _ hstep ihr => exact ihr.tail hstep.1
  · rintro ⟨_, h⟩
    induction h with
    | refl => exact Relation.ReflTransGen.refl
    | tail hab hstep ihr =>
      rename_i b c
      have hb : b ∉ processed := reachP_not_processed hsp ihr
      have hbsel : isSel M b = true := sameIsland_sel_right ⟨hs, hab⟩
      have hc : c ∉ processed := fun hcp =>
        hb ((hP c hcp).2 b (uvStep_symm M hbsel hstep))
      exact ihr.tail ⟨hstep, hc⟩

lemma procClosed_nil (M : Mesh) : ProcClosed M [] := by
  intro x hx
  exact absurd hx (List.not_mem_nil x)

lemma procClosed_extend {M : Mesh} {processed : List ℕ}
    (hP : ProcClosed M processed) {I : List ℕ}
    (hIsel : ∀ x ∈ I, isSel M x = true ∧ x ∉ processed)
    (hIclosed : ∀ f ∈ I, ∀ g, stepP M processed f g → g ∈ I) :
    ProcClosed M (processed ++ I) := by
  intro x hx
  rcases List.mem_append.mp hx with h | h
  · exact ⟨(hP x h).1, fun y hy => List.mem_append.mpr (Or.inl ((hP x h).2 y hy))⟩
  · refine ⟨(hIsel x h).1, fun y hy => ?_⟩
    by_cases hyp : y ∈ processed
    · exact List.mem_append.mpr (Or.inl hyp)
    · exact List.mem_append.mpr (Or.inr (hIclosed x h y ⟨hy, hyp⟩))

lemma get_uv_island_closed {M : Mesh} {processed picks : List ℕ} {s : ℕ}
    (hs : isSel M s = true) (hsp : s ∉ processed) :
    ∀ f ∈ get_uv_island M processed picks s,
      ∀ g, stepP M processed f g → g ∈ get_uv_island M processed picks s := by
  intro f hf g hg
  have hspec := (get_uv_island_spec M processed picks s hs hsp).2
  exact (hspec g).mpr (((hspec f).mp hf).tail hg)

/-! ## Correctness of the island-collection loop -/

lemma find_islands_go_spec (M : Mesh) :
    ∀ (order : List ℕ) (pickss : List (List ℕ)) (processed : List ℕ),
      ProcClosed M processed →
      (∀ isl ∈ find_islands_go M order pickss processed,
        isl.Nodup ∧ isl ≠ [] ∧ (∀ x ∈ isl, x ∉ processed) ∧
        ∃ s, isSel M s = true ∧ ∀ j, (j ∈ isl ↔ SameIsland M s j)) ∧
      (∀ i ∈ order, isSel M i = true → i ∉ processed →
        ∃ isl ∈ find_islands_go M order pickss processed, i ∈ isl) ∧
      List.Pairwise (fun a b => ∀ x ∈ a, x ∉ b)
        (find_islands_go M order pickss processed) := by
  intro order
  induction order with
  | nil =>
    intro pickss processed _
    refine ⟨?_, ?_, ?_⟩ <;> simp [find_islands_go]
  | cons i order ih =>
    intro pickss processed hP
    by_cases hcond : (isSel M i && !processed.contains i) = true
    · have hisel : isSel M i = true := by
        have := hcond
        simp [Bool.and_eq_true] at this
        exact this.1
      have hip : i ∉ processed := by
        have := hcond
        simp [Bool.and_eq_true] at this
        exact this.2
      have hred : find_islands_go M (i :: order) pickss processed =
          get_uv_island M processed (pickss.headD []) i ::
            find_islands_go M order pickss.tail
              (processed ++ get_uv_island M processed (pickss.headD []) i) := by
        simp only [find_islands_go, hcond, if_true]
      obtain ⟨hnd, hchar⟩ := get_uv_island_spec M processed (pickss.headD []) i hisel hip
      have hself : i ∈ get_uv_island M processed (pickss.headD []) i :=
        (hchar i).mpr Relation.ReflTransGen.refl
      have hIsel : ∀ x ∈ get_uv_island M processed (pickss.headD []) i,
          isSel M x = true ∧ x ∉ processed := by
        intro x hx
        have hr := (hchar x).mp hx
        refine ⟨?_, reachP_not_processed hip hr⟩
        exact sameIsland_sel_right ((reachP_iff_sameIsland hP hisel hip x).mp hr)
      have hP2 : ProcClosed M
          (processed ++ get_uv_island M processed (pickss.headD []) i) :=
        procClosed_extend hP hIsel (get_uv_island_closed hisel hip)
      obtain ⟨ihwf, ihcov, ihdisj⟩ := ih pickss.tail
        (processed ++ get_uv_island M processed (pickss.headD []) i) hP2
      rw [hred]
      refine ⟨?_, ?_, ?_⟩
      · intro isl hisl
        rcases List.mem_cons.mp hisl with h | h
        · subst h
          refine ⟨hnd, List.ne_nil_of_mem hself,
            fun x hx => (hIsel x hx).2, i, hisel, fun j => ?_⟩
          rw [hchar j]
          exact reachP_iff_sameIsland hP hisel hip j
        · obtain ⟨h1, h2, h3, s, hssel, hschar⟩ := ihwf isl h
          refine ⟨h1, h2, fun x hx => ?_, s, hssel, hschar⟩
          intro hxp
          exact h3 x hx (List.mem_append.mpr (Or.inl hxp))
      · intro j hj hjsel hjp
        rcases List.mem_cons.mp hj with h | h
        · subst h
          exact ⟨_, List.mem_cons_self _ _, hself⟩
        · by_cases hji : j ∈ get_uv_island M processed (pickss.headD []) i
          · exact ⟨_, List.mem_cons_self _ _, hji⟩
          · have hjp2 : j ∉ processed ++ get_uv_island M processed (pickss.headD []) i := by
              intro hmem
              rcases List.mem_append.mp hmem with h2 | h2
              · exact hjp h2
              · exact hji h2
            obtain ⟨isl, hisl, hjisl⟩ := ihcov j h hjsel hjp2
            exact ⟨isl, List.mem_cons_of_mem _ hisl, hjisl⟩
      · refine List.pairwise_cons.mpr ⟨?_, ihdisj⟩
        intro isl hisl x hx hxisl
        have := (ihwf isl hisl).2.2.1 x hxisl
        exact this (List.mem_append.mpr (Or.inr hx))
    · have hred : find_islands_go M (i :: order) pickss processed =
          find_islands_go M order pickss processed := by
        simp only [find_islands_go]
        rw [if_neg hcond]
      obtain ⟨ihwf, ihcov, ihdisj⟩ := ih pickss processed hP
      rw [hred]
      refine ⟨ihwf, ?_, ihdisj⟩
      intro j hj hjsel hjp
      rcases List.mem_cons.mp hj with h | h
      · subst h
        exfalso
        apply hcond
        simp [Bool.and_eq_true, hjsel]
        exact hjp
      · exact ihcov j h hjsel hjp

/-! ## Facts about `find_islands` -/

lemma find_islands_spec (M : Mesh) :
    (∀ isl ∈ find_islands M, isl.Nodup ∧ isl ≠ [] ∧
      ∃ s, isSel M s = true ∧ ∀ j, (j ∈ isl ↔ SameIsland M s j)) ∧
    (∀ i, isSel M i = true → ∃ isl ∈ find_islands M, i ∈ isl) ∧
    List.Pairwise (fun a b => ∀ x ∈ a, x ∉ b) (find_islands M) := by
  obtain ⟨hwf, hcov, hdisj⟩ :=
    find_islands_go_spec M (List.range M.numFaces) [] [] (procClosed_nil M)
  refine ⟨fun isl hisl => ?_, fun i hi => ?_, hdisj⟩
  · obtain ⟨h1, h2, _, hex⟩ := hwf isl hisl
    exact ⟨h1, h2, hex⟩
  · exact hcov i (List.mem_range.mpr (isSel_lt_numFaces hi)) hi (List.not_mem_nil i)

lemma find_islands_mem_sel {M : Mesh} {isl : List ℕ} (hisl : isl ∈ find_islands M)
    {x : ℕ} (hx : x ∈ isl) : isSel M x = true := by
  obtain ⟨_, _, s, _, hchar⟩ := (find_islands_spec M).1 isl hisl
  exact sameIsland_sel_right ((hchar x).mp hx)

lemma find_islands_mem_lt {M : Mesh} {isl : List ℕ} (hisl : isl ∈ find_islands M)
    {x : ℕ} (hx : x ∈ isl) : x < M.numFaces :=
  isSel_lt_numFaces (find_islands_mem_sel hisl hx)

/-! ## Frame lemmas for the island-moving loops -/

lemma islandUVs_congr {M1 M2 : Mesh} {isl : List ℕ}
    (h : ∀ i ∈ isl, M1.faceAt i = M2.faceAt i) :
    islandUVs M1 isl = islandUVs M2 isl := by
  unfold islandUVs
  congr 1
  exact List.map_congr_left (fun i hi => by rw [h i hi])

lemma islandUVs_updFaces_translate (M : Mesh) (isl : List ℕ) (d : ℚ × ℚ)
    (hlt : ∀ i ∈ isl, i < M.numFaces) :
    islandUVs ⟨updFaces isl (translateFace d) 0 M.faces, M.edges, M.channels⟩ isl =
      (islandUVs M isl).map fun a => (a.1 + d.1, a.2 + d.2) := by
  unfold islandUVs
  rw [List.map_flatten]
  congr 1
  rw [List.map_map]
  apply List.map_congr_left
  intro i hi
  rw [faceAt_updMesh, if_pos ⟨hi, hlt i hi⟩]
  rfl

lemma faceAt_snapIslandsGo_not_mem (tx ty : ℚ) :
    ∀ (isls : List (List ℕ)) (M : Mesh) (i : ℕ),
      (∀ isl ∈ isls, i ∉ isl) →
      (snapIslandsGo tx ty isls M).faceAt i = M.faceAt i := by
  intro isls
  induction isls with
  | nil => intro M i _; rfl
  | cons isl rest ih =>
    intro M i hni
    simp only [snapIslandsGo]
    cases h : islandUVs M isl with
    | nil => exact ih M i fun isl2 h2 => hni isl2 (List.mem_cons_of_mem _ h2)
    | cons u us =>
      rw [ih _ i fun isl2 h2 => hni isl2 (List.mem_cons_of_mem _ h2)]
      rw [faceAt_updMesh, if_neg]
      intro hc
      exact hni isl (List.mem_cons_self _ _) hc.1

lemma snapIslandsGo_numFaces (tx ty : ℚ) :
    ∀ (isls : List (List ℕ)) (M : Mesh),
      (snapIslandsGo tx ty isls M).numFaces = M.numFaces := by
  intro isls
  induction isls with
  | nil => intro M; rfl
  | cons isl rest ih =>
    intro M
    simp only [snapIslandsGo]
    cases h : islandUVs M isl with
    | nil => exact ih M
    | cons u us =>
      rw [ih]
      show (updFaces isl _ 0 M.faces).length = M.faces.length
      exact updFaces_length _ _ 0 M.faces

lemma snapIslandsGo_center (tx ty : ℚ) :
    ∀ (isls : List (List ℕ)) (M : Mesh),
      List.Pairwise (fun a b => ∀ x ∈ a, x ∉ b) isls →
      (∀ isl ∈ isls, ∀ i ∈ isl, i < M.numFaces) →
      ∀ isl ∈ isls, islandUVs M isl ≠ [] →
        bboxCenter (islandUVs (snapIslandsGo tx ty isls M) isl) = (tx, ty) := by
  intro isls
  induction isls with
  | nil =>
    intro M _ _ isl h
    exact absurd h (List.not_mem_nil isl)
  | cons isl0 rest ih =>
    intro M hpw hlt isl hisl hne
    obtain ⟨hd0, hdrest⟩ := List.pairwise_cons.mp hpw
    simp only [snapIslandsGo]
    cases h : islandUVs M isl0 with
    | nil =>
      rcases List.mem_cons.mp hisl with he | he
      · subst he
        exact absurd h hne
      · exact ih M hdrest
          (fun isl2 h2 => hlt isl2 (List.mem_cons_of_mem _ h2)) isl he hne
    | cons u us =>
      rcases List.mem_cons.mp hisl with he | he
      · subst he
        have hframe : ∀ i ∈ isl,
            (snapIslandsGo tx ty rest
              ⟨updFaces isl (translateFace (snapDelta tx ty (u :: us))) 0 M.faces,
                M.edges, M.channels⟩).faceAt i =
            (⟨updFaces isl (translateFace (snapDelta tx ty (u :: us))) 0 M.faces,
                M.edges, M.channels⟩ : Mesh).faceAt i := by
          intro i hi
          exact faceAt_snapIslandsGo_not_mem tx ty rest _ i
            (fun isl2 h2 hmem => hd0 isl2 h2 i hi hmem)
        rw [islandUVs_congr hframe,
          islandUVs_updFaces_translate M isl _ (hlt isl (List.mem_cons_self _ _)), h,
          bboxCenter_translate]
        simp only [snapDelta, h]
        refine Prod.ext ?_ ?_ <;> dsimp <;> ring
      · have hframe2 : ∀ i ∈ isl,
            (⟨updFaces isl0 (translateFace (snapDelta tx ty (u :: us))) 0 M.faces,
                M.edges, M.channels⟩ : Mesh).faceAt i = M.faceAt i := by
          intro i hi
          rw [faceAt_updMesh, if_neg]
          intro hc
          exact hd0 isl he i hc.1 hi
        have huv : islandUVs
            (⟨updFaces isl0 (translateFace (snapDelta tx ty (u :: us))) 0 M.faces,
              M.edges, M.channels⟩ : Mesh) isl = islandUVs M isl :=
          islandUVs_congr hframe2
        apply ih _ hdrest
        · intro isl2 h2 i hi
          have : (⟨updFaces isl0 (translateFace (snapDelta tx ty (u :: us))) 0 M.faces,
              M.edges, M.channels⟩ : Mesh).numFaces = M.numFaces :=
            updFaces_length _ _ 0 M.faces
          rw [this]
          exact hlt isl2 (List.mem_cons_of_mem _ h2) i hi
        · exact he
        · rw [huv]
          exact hne

lemma faceAt_offsetIslandsGo_not_mem (direction : String) (dx dy : ℚ) :
    ∀ (isls : List (List ℕ)) (M : Mesh) (i : ℕ),
      (∀ isl ∈ isls, i ∉ isl) →
      (offsetIslandsGo direction dx dy isls M).faceAt i = M.faceAt i := by
  intro isls
  induction isls with
  | nil => intro M i _; rfl
  | cons isl rest ih =>
    intro M i hni
    simp only [offsetIslandsGo]
    cases h : islandUVs M isl with
    | nil => exact ih M i fun isl2 h2 => hni isl2 (List.mem_cons_of_mem _ h2)
    | cons u us =>
      rw [ih _ i fun isl2 h2 => hni isl2 (List.mem_cons_of_mem _ h2)]
      rw [faceAt_updMesh, if_neg]
      intro hc
      exact hni isl (List.mem_cons_self _ _) hc.1

lemma snapMeshOp_frame (tx ty : ℚ) (M : Mesh) (i : ℕ)
    (h : isSel M i = false) :
    (snapMeshOp tx ty M).faceAt i = M.faceAt i := by
  unfold snapMeshOp
  apply faceAt_snapIslandsGo_not_mem
  intro isl hisl hmem
  have hsel := find_islands_mem_sel hisl hmem
  rw [h] at hsel
  exact Bool.false_ne_true hsel

lemma offsetMeshOp_frame (direction : String) (dx dy : ℚ) (M : Mesh) (i : ℕ)
    (h : isSel M i = false) :
    (offsetMeshOp direction dx dy M).faceAt i = M.faceAt i := by
  unfold offsetMeshOp
  apply faceAt_offsetIslandsGo_not_mem
  intro isl hisl hmem
  have hsel := find_islands_mem_sel hisl hmem
  rw [h] at hsel
  exact Bool.false_ne_true hsel

/-! ## Unknown direction strings leave everything unchanged -/

lemma offsetFace_not_dir {direction : String}
    (h1 : direction ≠ "up") (h2 : direction ≠ "down")
    (h3 : direction ≠ "left") (h4 : direction ≠ "right")
    (cx cy dx dy : ℚ) (f : Face) :
    offsetFace direction cx cy dx dy f = f := by
  unfold offsetFace
  rw [List.map_congr_left fun a _ => offsetUV_not_dir h1 h2 h3 h4 cx cy dx dy a]
  simp

lemma offsetIslandsGo_not_dir {direction : String}
    (h1 : direction ≠ "up") (h2 : direction ≠ "down")
    (h3 : direction ≠ "left") (h4 : direction ≠ "right") (dx dy : ℚ) :
    ∀ (isls : List (List ℕ)) (M : Mesh),
      offsetIslandsGo direction dx dy isls M = M := by
  intro isls
  induction isls with
  | nil => intro M; rfl
  | cons isl rest ih =>
    intro M
    simp only [offsetIslandsGo]
    cases h : islandUVs M isl with
    | nil => exact ih M
    | cons u us =>
      have hupd : updFaces isl
          (offsetFace direction (bboxCenter (u :: us)).1
            (bboxCenter (u :: us)).2 dx dy) 0 M.faces = M.faces :=
        updFaces_id _ _ (fun f => offsetFace_not_dir h1 h2 h3 h4 _ _ _ _ f)
          0 M.faces
      show offsetIslandsGo direction dx dy rest
        ⟨updFaces isl (offsetFace direction (bboxCenter (u :: us)).1
            (bboxCenter (u :: us)).2 dx dy) 0 M.faces,
          M.edges, M.channels⟩ = M
      rw [hupd]
      exact ih M

lemma offsetMeshOp_not_dir {direction : String}
    (h1 : direction ≠ "up") (h2 : direction ≠ "down")
    (h3 : direction ≠ "left") (h4 : direction ≠ "right") (dx dy : ℚ)
    (M : Mesh) : offsetMeshOp direction dx dy M = M :=
  offsetIslandsGo_not_dir h1 h2 h3 h4 dx dy (find_islands M) M

lemma offsetGo_not_dir (p : Prefs) {direction : String}
    (h1 : direction ≠ "up") (h2 : direction ≠ "down")
    (h3 : direction ≠ "left") (h4 : direction ≠ "right") :
    ∀ (objs : List Obj),
      (∀ o ∈ objs, o.isMesh = true →
        o.mesh.channels.contains p.uv_channel = true) →
      offsetGo p direction objs = (Status.FINISHED, objs) := by
  intro objs
  induction objs with
  | nil => intro _; rfl
  | cons o os ih =>
    intro hch
    simp only [offsetGo]
    by_cases hm : o.isMesh = false
    · rw [if_pos hm, ih fun o2 h2 => hch o2 (List.mem_cons_of_mem _ h2)]
    · have hm2 : o.isMesh = true := by simpa using hm
      rw [if_neg hm,
        if_neg (by simpa using hch o (List.mem_cons_self _ _) hm2),
        ih fun o2 h2 => hch o2 (List.mem_cons_of_mem _ h2),
        offsetMeshOp_not_dir h1 h2 h3 h4]

/-! ## Elementwise behaviour of the object loops -/

lemma snapGo_length (p : Prefs) (tx ty : ℚ) :
    ∀ objs : List Obj, (snapGo p tx ty objs).2.length = objs.length := by
  intro objs
  induction objs with
  | nil => rfl
  | cons o os ih =>
    simp only [snapGo]
    by_cases h1 : o.isMesh = false
    · rw [if_pos h1]
      simp [ih]
    · rw [if_neg h1]
      by_cases h2 : o.mesh.channels.contains p.uv_channel = false
      · rw [if_pos h2]
      · rw [if_neg h2]
        simp [ih]

lemma offsetGo_length (p : Prefs) (direction : String) :
    ∀ objs : List Obj, (offsetGo p direction objs).2.length = objs.length := by
  intro objs
  induction objs with
  | nil => rfl
  | cons o os ih =>
    simp only [offsetGo]
    by_cases h1 : o.isMesh = false
    · rw [if_pos h1]
      simp [ih]
    · rw [if_neg h1]
      by_cases h2 : o.mesh.channels.contains p.uv_channel = false
      · rw [if_pos h2]
      · rw [if_neg h2]
        simp [ih]

lemma snapGo_elem (p : Prefs) (tx ty : ℚ) :
    ∀ (objs : List Obj) (k : ℕ),
      (snapGo p tx ty objs).2.getD k defaultObj = objs.getD k defaultObj ∨
      ((objs.getD k defaultObj).isMesh = true ∧
        (snapGo p tx ty objs).2.getD k defaultObj =
          ⟨(objs.getD k defaultObj).isMesh,
            snapMeshOp tx ty (objs.getD k defaultObj).mesh⟩) := by
  intro objs
  induction objs with
  | nil => intro k; left; rfl
  | cons o os ih =>
    intro k
    simp only [snapGo]
    by_cases h1 : o.isMesh = false
    · rw [if_pos h1]
      cases k with
      | zero => left; rfl
      | succ n => simpa using ih n
    · rw [if_neg h1]
      by_cases h2 : o.mesh.channels.contains p.uv_channel = false
      · rw [if_pos h2]
        left
        rfl
      · rw [if_neg h2]
        cases k with
        | zero =>
          right
          exact ⟨by simpa using h1, rfl⟩
        | succ n => simpa using ih n

lemma offsetGo_elem (p : Prefs) (direction : String) :
    ∀ (objs : List Obj) (k : ℕ),
      (offsetGo p direction objs).2.getD k defaultObj = objs.getD k defaultObj ∨
      ((objs.getD k defaultObj).isMesh = true ∧
        (offsetGo p direction objs).2.getD k defaultObj =
          ⟨(objs.getD k defaultObj).isMesh,
            offsetMeshOp direction (clampedOffsetX p.grid_columns)
              (clampedOffsetY p.grid_rows) (objs.getD k defaultObj).mesh⟩) := by
  intro objs
  induction objs with
  | nil => intro k; left; rfl
  | cons o os ih =>
    intro k
    simp only [offsetGo]
    by_cases h1 : o.isMesh = false
    · rw [if_pos h1]
      cases k with
      | zero => left; rfl
      | succ n => simpa using ih n
    · rw [if_neg h1]
      by_cases h2 : o.mesh.channels.contains p.uv_channel = false
      · rw [if_pos h2]
        left
        rfl
      · rw [if_neg h2]
        cases k with
        | zero =>
          right
          exact ⟨by simpa using h1, rfl⟩
        | succ n => simpa using ih n

lemma snapGo_cancel (p : Prefs) (tx ty : ℚ) :
    ∀ (objs1 : List Obj) (o : Obj) (objs2 : List Obj),
      o.isMesh = true →
      o.mesh.channels.contains p.uv_channel = false →
      (∀ o2 ∈ objs1, o2.isMesh = true →
        o2.mesh.channels.contains p.uv_channel = true) →
      snapGo p tx ty (objs1 ++ o :: objs2) =
        (Status.CANCELLED, objs1.map (snapObjResult tx ty) ++ o :: objs2) := by
  intro objs1
  induction objs1 with
  | nil =>
    intro o objs2 ho hch _
    simp only [List.nil_append, snapGo, List.map_nil]
    rw [if_neg (by simp [ho]), if_pos hch]
  | cons a objs1 ih =>
    intro o objs2 ho hch hpre
    simp only [List.cons_append, snapGo, List.map_cons, List.append_eq]
    by_cases h1 : a.isMesh = false
    · rw [if_pos h1,
        ih o objs2 ho hch fun o2 h2 => hpre o2 (List.mem_cons_of_mem _ h2)]
      simp [snapObjResult, h1]
    · have ha : a.isMesh = true := by simpa using h1
      have hach := hpre a (List.mem_cons_self _ _) ha
      rw [if_neg h1, if_neg (by simpa using hach),
        ih o objs2 ho hch fun o2 h2 => hpre o2 (List.mem_cons_of_mem _ h2)]
      simp [snapObjResult, ha]

/-! ## Evaluating the snap targets -/

lemma target_x_eq (columns cell_index : ℕ) (hc : 1 ≤ columns) :
    target_x columns cell_index =
      ((cell_index % columns : ℕ) : ℚ) / (columns : ℚ) +
        1 / (2 * (columns : ℚ)) := by
  have hlt : cell_index % columns < columns := Nat.mod_lt _ (by omega)
  have hlen : cell_index % columns < (grid_x columns).length := by
    rw [grid_x, List.length_map, List.length_range]
    exact hlt
  rw [target_x, List.getD_eq_getElem _ _ hlen]
  simp [grid_x]

lemma target_y_eq (columns rows cell_index : ℕ)
    (hrow : cell_index / columns < rows) :
    target_y columns rows cell_index =
      (1 - ((cell_index / columns : ℕ) : ℚ) / (rows : ℚ)) -
        1 / (2 * (rows : ℚ)) := by
  have hlen : cell_index / columns < (grid_y rows).length := by
    rw [grid_y, List.length_map, List.length_range]
    exact hrow
  rw [target_y, List.getD_eq_getElem _ _ hlen]
  simp [grid_y]

/-! ## Index access through `map` -/

lemma getD_map_uv (f : UVCoord → UVCoord) (l : List UVCoord) (i : ℕ)
    (h : i < l.length) :
    (l.map f).getD i (0, 0) = f (l.getD i (0, 0)) := by
  have h2 : i < (l.map f).length := by simpa using h
  rw [List.getD_eq_getElem _ _ h2, List.getD_eq_getElem _ _ h, List.getElem_map]

end UVCellSnap

namespace UVCellSnap

/-! ## Claim theorems -/

lemma snapUVList_idem (tx ty : ℚ) (uvs : List UVCoord) :
    snapUVList tx ty (snapUVList tx ty uvs) = snapUVList tx ty uvs := by
  cases uvs with
  | nil => rfl
  | cons u us =>
    obtain ⟨v, vs, hv⟩ : ∃ v vs, snapUVList tx ty (u :: us) = v :: vs :=
      ⟨_, _, rfl⟩
    rw [hv]
    have hc2 : bboxCenter (v :: vs) = (tx, ty) := by
      rw [← hv]
      exact bboxCenter_snapUVList tx ty u us
    simp only [snapUVList, snapDelta, hc2]
    have hpt : ∀ a : UVCoord, (a.1 + (tx - tx), a.2 + (ty - ty)) = a := by
      intro a
      refine Prod.ext ?_ ?_ <;> dsimp <;> ring
    rw [List.map_congr_left fun a _ => hpt a]
    simp

/-- C5 (confirmed): for every invocation of the snap operator with
`cell_index ≥ columns * rows`, the out-of-bounds check reports an error and
the invocation returns `CANCELLED` before any UV coordinate of any mesh is
written: the object list is returned unchanged. -/
theorem out_of_bounds_cell_cancels_without_mutation (p : Prefs)
    (cell_index : ℕ) (objs : List Obj)
    (h : p.grid_columns * p.grid_rows ≤ cell_index) :
    snapExecute p cell_index objs = (Status.CANCELLED, objs) := by
  unfold snapExecute
  rw [if_pos h]

/-- C5 witness: `columns = 4`, `rows = 2`, `cell_index = 8` on a concrete
scene: cancelled, nothing changes. -/
theorem out_of_bounds_cell_cancels_without_mutation_witness :
    snapExecute samplePrefs 8 [objWithChannel] =
      (Status.CANCELLED, [objWithChannel]) :=
  out_of_bounds_cell_cancels_without_mutation samplePrefs 8 [objWithChannel]
    (by decide)

/-- C6 (confirmed): the snap transform is idempotent at the island level:
applying it twice with the same cell target (recomputing the bounding box from
the translated coordinates the second time) equals applying it once. -/
theorem snap_to_cell_idempotent (columns rows cell_index : ℕ)
    (uvs : List UVCoord) :
    snapUVList (target_x columns cell_index)
        (target_y columns rows cell_index)
        (snapUVList (target_x columns cell_index)
          (target_y columns rows cell_index) uvs) =
      snapUVList (target_x columns cell_index)
        (target_y columns rows cell_index) uvs :=
  snapUVList_idem _ _ uvs

/-- C7 (confirmed): both the snap and the offset island transforms preserve
all pairwise squared distances between the UV coordinates of one island (they
are rigid: either a common translation or the identity). -/
theorem snap_offset_rigid_translation (tx ty : ℚ) (direction : String)
    (dx dy : ℚ) (uvs : List UVCoord) (i j : ℕ)
    (hi : i < uvs.length) (hj : j < uvs.length) :
    uvDistSq ((snapUVList tx ty uvs).getD i (0, 0))
        ((snapUVList tx ty uvs).getD j (0, 0)) =
      uvDistSq (uvs.getD i (0, 0)) (uvs.getD j (0, 0)) ∧
    uvDistSq ((offsetUVList direction dx dy uvs).getD i (0, 0))
        ((offsetUVList direction dx dy uvs).getD j (0, 0)) =
      uvDistSq (uvs.getD i (0, 0)) (uvs.getD j (0, 0)) := by
  cases uvs with
  | nil => exact absurd hi (by simp)
  | cons u us =>
    constructor
    · simp only [snapUVList]
      rw [getD_map_uv _ _ i hi, getD_map_uv _ _ j hj]
      unfold uvDistSq
      dsimp
      ring
    · simp only [offsetUVList]
      rw [getD_map_uv _ _ i hi, getD_map_uv _ _ j hj, offsetUV_dist]

/-- C7 witness: rigidity at a concrete island, snap target and offset. -/
theorem snap_offset_rigid_translation_witness :
    uvDistSq ((snapUVList (3/8) (1/4) outsideIsland).getD 0 (0, 0))
        ((snapUVList (3/8) (1/4) outsideIsland).getD 1 (0, 0)) =
      uvDistSq (outsideIsland.getD 0 (0, 0)) (outsideIsland.getD 1 (0, 0)) ∧
    uvDistSq ((offsetUVList "up" (clampedOffsetX 4) (clampedOffsetY 2)
          outsideIsland).getD 0 (0, 0))
        ((offsetUVList "up" (clampedOffsetX 4) (clampedOffsetY 2)
          outsideIsland).getD 1 (0, 0)) =
      uvDistSq (outsideIsland.getD 0 (0, 0)) (outsideIsland.getD 1 (0, 0)) :=
  snap_offset_rigid_translation (3/8) (1/4) "up" (clampedOffsetX 4)
    (clampedOffsetY 2) outsideIsland 0 1 (by decide) (by decide)

/-- C4 (corrected): the offset transform moves the whole island by the grid
step exactly when the one-sided guard of the source holds (`up` checks only
`center_y + Δy < 1`, `down` only `center_y − Δy > 0`, and symmetrically on x);
otherwise the island is left completely unmodified — never partially moved or
clamped.  The claim's "remains strictly within (0,1)" guard is not what the
code tests: the opposite bound is never checked (see the counterexample). -/
theorem offset_applies_iff_one_sided_guard (columns rows : ℕ)
    (direction : String) (uvs : List UVCoord) (hne : uvs ≠ []) :
    offsetUVList direction (clampedOffsetX columns) (clampedOffsetY rows) uvs =
      (if direction = "up" ∧
          (bboxCenter uvs).2 + clampedOffsetY rows < 1 then
        uvs.map fun a => (a.1, a.2 + clampedOffsetY rows)
      else if direction = "down" ∧
          0 < (bboxCenter uvs).2 - clampedOffsetY rows then
        uvs.map fun a => (a.1, a.2 - clampedOffsetY rows)
      else if direction = "right" ∧
          (bboxCenter uvs).1 + clampedOffsetX columns < 1 then
        uvs.map fun a => (a.1 + clampedOffsetX columns, a.2)
      else if direction = "left" ∧
          0 < (bboxCenter uvs).1 - clampedOffsetX columns then
        uvs.map fun a => (a.1 - clampedOffsetX columns, a.2)
      else uvs) := by
  cases uvs with
  | nil => exact absurd rfl hne
  | cons u us =>
    simp only [offsetUVList]
    split_ifs with g1 g2 g3 g4
    · exact List.map_congr_left fun a _ => by
        unfold offsetUV
        rw [if_pos g1]
    · exact List.map_congr_left fun a _ => by
        unfold offsetUV
        rw [if_neg g1, if_pos g2]
    · exact List.map_congr_left fun a _ => by
        unfold offsetUV
        rw [if_neg g1, if_neg g2, if_pos g3]
    · exact List.map_congr_left fun a _ => by
        unfold offsetUV
        rw [if_neg g1, if_neg g2, if_neg g3, if_pos g4]
    · have hid : ∀ a ∈ u :: us,
          offsetUV direction (bboxCenter (u :: us)).1 (bboxCenter (u :: us)).2
            (clampedOffsetX columns) (clampedOffsetY rows) a = a := by
        intro a _
        unfold offsetUV
        rw [if_neg g1, if_neg g2, if_neg g3, if_neg g4]
      rw [List.map_congr_left hid]
      simp

/-- C4 boundary-rejection witness: `columns = 4`, `rows = 2`, an island whose
bounding-box center has `y = 0.9`: offset `"up"` changes nothing because
`0.9 + 0.5 ≥ 1`. -/
theorem offset_applies_iff_one_sided_guard_witness :
    offsetUVList "up" (clampedOffsetX 4) (clampedOffsetY 2) boundaryIsland =
      boundaryIsland := by
  have h := offset_applies_iff_one_sided_guard 4 2 "up" boundaryIsland
    (by decide)
  rw [h]
  with_unfolding_all decide

/-- C4 counterexample: the island `[(-3/2,-3/2), (-1/2,-1/2)]` is centered at
`(-1, -1)`.  Offsetting `"up"` on a 4 × 2 grid moves it (the code only checks
`center_y + Δy < 1`), although the center after the move, `-1/2`, does not lie
strictly within `(0, 1)` — refuting the claim that movement happens only when
the center would remain strictly within `(0, 1)`. -/
theorem offset_center_outside_unit_square_cex :
    bboxCenter outsideIsland = (-1, -1) ∧
    offsetUVList "up" (clampedOffsetX 4) (clampedOffsetY 2) outsideIsland =
      [(-3/2, -1), (-1/2, 0)] ∧
    offsetUVList "up" (clampedOffsetX 4) (clampedOffsetY 2) outsideIsland ≠
      outsideIsland ∧
    ¬ (0 < (-1 : ℚ) + clampedOffsetY 2 ∧ (-1 : ℚ) + clampedOffsetY 2 < 1) := by
  refine ⟨?_, ?_, ?_, ?_⟩ <;> with_unfolding_all decide

/-- C10 (corrected): a direction string other than the four known ones makes
the per-coordinate guard chain fall through to its final `else`, so every UV
coordinate is left unchanged and the operator returns `FINISHED` — provided
every selected mesh carries the configured channel (a missing channel still
reports an error and cancels before the direction is ever examined). -/
theorem unknown_direction_is_noop_success (p : Prefs) (direction : String)
    (objs : List Obj)
    (h1 : direction ≠ "up") (h2 : direction ≠ "down")
    (h3 : direction ≠ "left") (h4 : direction ≠ "right")
    (hch : ∀ o ∈ objs, o.isMesh = true →
      o.mesh.channels.contains p.uv_channel = true) :
    offsetExecute p direction objs = (Status.FINISHED, objs) :=
  offsetGo_not_dir p h1 h2 h3 h4 objs hch

/-- C10 witness: direction `"diagonal"` on a mesh that has the channel:
success and no change. -/
theorem unknown_direction_is_noop_success_witness :
    offsetExecute samplePrefs "diagonal" [objWithChannel] =
      (Status.FINISHED, [objWithChannel]) :=
  unknown_direction_is_noop_success samplePrefs "diagonal" [objWithChannel]
    (by decide) (by decide) (by decide) (by decide) (by decide)

/-- C10 counterexample: with an unknown direction `"diagonal"` but a mesh
lacking the configured channel, the operator reports the channel error and
returns `CANCELLED`, not the claimed unconditional success status. -/
theorem unknown_direction_missing_channel_cex :
    offsetExecute samplePrefs "diagonal" [objNoChannel] =
      (Status.CANCELLED, [objNoChannel]) := by
  decide

/-- C1 (confirmed): for every island of a mesh with at least one UV coordinate
and every valid `cell_index < columns * rows`, after the snap operation the
island's axis-aligned bounding-box center equals the target cell center
`(column/columns + 1/(2*columns), (1 - row/rows) - 1/(2*rows))` with
`row = cell_index / columns` and `column = cell_index % columns`. -/
theorem snap_centers_island_on_cell (columns rows cell_index : ℕ) (M : Mesh)
    (hc : 1 ≤ columns) (hcell : cell_index < columns * rows)
    (isl : List ℕ) (hisl : isl ∈ find_islands M)
    (hne : islandUVs M isl ≠ []) :
    bboxCenter (islandUVs (snapMeshOp (target_x columns cell_index)
        (target_y columns rows cell_index) M) isl) =
      (((cell_index % columns : ℕ) : ℚ) / (columns : ℚ) +
          1 / (2 * (columns : ℚ)),
        (1 - ((cell_index / columns : ℕ) : ℚ) / (rows : ℚ)) -
          1 / (2 * (rows : ℚ))) := by
  have hrow : cell_index / columns < rows := Nat.div_lt_of_lt_mul hcell
  have hcenter := snapIslandsGo_center (target_x columns cell_index)
    (target_y columns rows cell_index) (find_islands M) M
    (find_islands_spec M).2.2
    (fun isl2 h2 i hi => find_islands_mem_lt h2 hi)
    isl hisl hne
  unfold snapMeshOp
  rw [hcenter, target_x_eq columns cell_index hc,
    target_y_eq columns rows cell_index hrow]

/-- C1 witness: `columns = 4`, `rows = 2`, `cell_index = 5` on the island with
bounding box `[0, 0.2] × [0, 0.2]`: its center lands on the cell-5 center
(which evaluates to `(0.375, 0.25)`). -/
theorem snap_centers_island_on_cell_witness :
    bboxCenter (islandUVs (snapMeshOp (target_x 4 5) (target_y 4 2 5)
        sampleMesh1) [0]) =
      (((5 % 4 : ℕ) : ℚ) / (4 : ℚ) + 1 / (2 * (4 : ℚ)),
        (1 - ((5 / 4 : ℕ) : ℚ) / (2 : ℚ)) - 1 / (2 * (2 : ℚ))) :=
  snap_centers_island_on_cell 4 2 5 sampleMesh1 (by decide) (by decide) [0]
    (by with_unfolding_all decide) (by decide)

/-- C2 (confirmed): for every mesh, every face visitation order covering all
faces and every `set.pop()` choice sequence, the produced islands are pairwise
disjoint, their union is exactly the selected-face set, each island is the
connected component (`SameIsland`) of each of its members, and the resulting
face grouping coincides for any two visitation orders and pop sequences. -/
theorem islands_partition_selected_faces (M : Mesh)
    (order order2 : List ℕ) (pickss pickss2 : List (List ℕ))
    (hcov : ∀ i, i < M.numFaces → i ∈ order)
    (hcov2 : ∀ i, i < M.numFaces → i ∈ order2) :
    List.Pairwise (fun a b => ∀ x ∈ a, x ∉ b)
      (find_islands_go M order pickss []) ∧
    (∀ i, isSel M i = true ↔
      ∃ isl ∈ find_islands_go M order pickss [], i ∈ isl) ∧
    (∀ isl ∈ find_islands_go M order pickss [], ∀ i ∈ isl, ∀ j,
      (j ∈ isl ↔ SameIsland M i j)) ∧
    (∀ i j, (∃ isl ∈ find_islands_go M order pickss [], i ∈ isl ∧ j ∈ isl) ↔
      (∃ isl ∈ find_islands_go M order2 pickss2 [], i ∈ isl ∧ j ∈ isl)) := by
  have key : ∀ (ord : List ℕ) (pks : List (List ℕ)),
      (∀ i, i < M.numFaces → i ∈ ord) →
      List.Pairwise (fun a b => ∀ x ∈ a, x ∉ b)
        (find_islands_go M ord pks []) ∧
      (∀ i, isSel M i = true ↔
        ∃ isl ∈ find_islands_go M ord pks [], i ∈ isl) ∧
      (∀ isl ∈ find_islands_go M ord pks [], ∀ i ∈ isl, ∀ j,
        (j ∈ isl ↔ SameIsland M i j)) ∧
      (∀ i j, (∃ isl ∈ find_islands_go M ord pks [], i ∈ isl ∧ j ∈ isl) ↔
        (isSel M i = true ∧ SameIsland M i j)) := by
    intro ord pks hcv
    obtain ⟨hwf, hcov3, hdisj⟩ :=
      find_islands_go_spec M ord pks [] (procClosed_nil M)
    refine ⟨hdisj, ?_, ?_, ?_⟩
    · intro i
      constructor
      · intro hi
        exact hcov3 i (hcv i (isSel_lt_numFaces hi)) hi (List.not_mem_nil i)
      · rintro ⟨isl, hisl, hi⟩
        obtain ⟨_, _, _, s, hs, hchar⟩ := hwf isl hisl
        exact sameIsland_sel_right ((hchar i).mp hi)
    · intro isl hisl i hi j
      obtain ⟨_, _, _, s, hs, hchar⟩ := hwf isl hisl
      have hsi : SameIsland M s i := (hchar i).mp hi
      constructor
      · intro hj
        exact sameIsland_trans (sameIsland_symm hsi) ((hchar j).mp hj)
      · intro hij
        exact (hchar j).mpr (sameIsland_trans hsi hij)
    · intro i j
      constructor
      · rintro ⟨isl, hisl, hi, hj⟩
        obtain ⟨_, _, _, s, hs, hchar⟩ := hwf isl hisl
        have hsi := (hchar i).mp hi
        exact ⟨sameIsland_sel_right hsi,
          sameIsland_trans (sameIsland_symm hsi) ((hchar j).mp hj)⟩
      · rintro ⟨hi, hij⟩
        obtain ⟨isl, hisl, hmem⟩ :=
          hcov3 i (hcv i (isSel_lt_numFaces hi)) hi (List.not_mem_nil i)
        obtain ⟨_, _, _, s, hs, hchar⟩ := hwf isl hisl
        refine ⟨isl, hisl, hmem, ?_⟩
        exact (hchar j).mpr (sameIsland_trans ((hchar i).mp hmem) hij)
  obtain ⟨k1, k2, k3, k4⟩ := key order pickss hcov
  obtain ⟨_, _, _, k4b⟩ := key order2 pickss2 hcov2
  exact ⟨k1, k2, k3, fun i j => (k4 i j).trans (k4b i j).symm⟩

/-- C2 witness: on a concrete two-face mesh, the detector (run with the
`bm.faces` order and default pop choices) covers selected face 0 with an
island. -/
theorem islands_partition_selected_faces_witness :
    ∃ isl ∈ find_islands_go sampleMesh2 (List.range sampleMesh2.numFaces)
      ([] : List (List ℕ)) [], (0 : ℕ) ∈ isl := by
  have h := islands_partition_selected_faces sampleMesh2
    (List.range sampleMesh2.numFaces) (List.range sampleMesh2.numFaces)
    ([] : List (List ℕ)) ([] : List (List ℕ))
    (fun i hi => List.mem_range.mpr hi) (fun i hi => List.mem_range.mpr hi)
  exact (h.2.1 0).mp (by decide)

/-- C3 (corrected): when the configured UV channel is absent on a selected
mesh, the snap operator reports the error and returns `CANCELLED`
immediately: meshes processed before it in the iteration keep their snap
mutations, while the failing mesh and every later object are left untouched —
the remaining meshes are NOT processed (contrary to the claim). -/
theorem missing_channel_cancels_and_skips_rest (p : Prefs) (cell_index : ℕ)
    (objs1 : List Obj) (o : Obj) (objs2 : List Obj)
    (hcell : cell_index < p.grid_columns * p.grid_rows)
    (ho : o.isMesh = true)
    (hch : o.mesh.channels.contains p.uv_channel = false)
    (hpre : ∀ o2 ∈ objs1, o2.isMesh = true →
      o2.mesh.channels.contains p.uv_channel = true) :
    snapExecute p cell_index (objs1 ++ o :: objs2) =
      (Status.CANCELLED,
        objs1.map (snapObjResult (target_x p.grid_columns cell_index)
          (target_y p.grid_columns p.grid_rows cell_index)) ++ o :: objs2) := by
  unfold snapExecute
  rw [if_neg (by omega)]
  exact snapGo_cancel p _ _ objs1 o objs2 ho hch hpre

/-- C3 witness (of the corrected claim): a mesh with the channel followed by a
mesh without it: the first is snapped, the invocation is cancelled at the
second. -/
theorem missing_channel_cancels_and_skips_rest_witness :
    snapExecute samplePrefs 0 ([objWithChannel] ++ objNoChannel :: []) =
      (Status.CANCELLED,
        [objWithChannel].map (snapObjResult
          (target_x samplePrefs.grid_columns 0)
          (target_y samplePrefs.grid_columns samplePrefs.grid_rows 0)) ++
          objNoChannel :: []) :=
  missing_channel_cancels_and_skips_rest samplePrefs 0 [objWithChannel]
    objNoChannel [] (by decide) (by decide) (by decide) (by decide)

/-- C3 counterexample: with the channel-less mesh first in the selection, the
whole invocation is cancelled and the second mesh — which carries the channel
and would be mutated when processed alone — is returned completely unchanged,
refuting "still processes and mutates the remaining selected meshes". -/
theorem missing_channel_aborts_whole_invocation_cex :
    snapExecute samplePrefs 0 [objNoChannel, objWithChannel] =
      (Status.CANCELLED, [objNoChannel, objWithChannel]) ∧
    (snapExecute samplePrefs 0 [objWithChannel]).2 ≠ [objWithChannel] := by
  constructor
  · with_unfolding_all decide
  · with_unfolding_all decide

/-- C8 (corrected): two faces whose corner UVs are at least `eps` apart at
every corner pair are never directly UV-connected — `are_uvs_connected` is
`false` and no traversal step links them — so they can only end up in the same
island through a chain of other UV-connected selected faces: if they do share
an island, some third face distinct from both belongs to that island. -/
theorem seam_faces_not_directly_connected (M : Mesh) (i j : ℕ) (hne : i ≠ j)
    (hfar : ∀ a ∈ (M.faceAt i).loops, ∀ b ∈ (M.faceAt j).loops,
      eps ^ 2 ≤ uvDistSq a b) :
    are_uvs_connected (M.faceAt i) (M.faceAt j) = false ∧
    ¬ uvStep M i j ∧
    (SameIsland M i j → ∃ k, k ≠ i ∧ k ≠ j ∧ SameIsland M i k) := by
  have hconn : are_uvs_connected (M.faceAt i) (M.faceAt j) = false := by
    rw [Bool.eq_false_iff]
    intro htrue
    obtain ⟨a, ha, b, hb, hd⟩ := (are_uvs_connected_iff _ _).mp htrue
    exact absurd hd (not_lt.mpr (hfar a ha b hb))
  have hnostep : ¬ uvStep M i j := by
    rintro ⟨_, _, hsc⟩
    rw [hconn] at hsc
    exact Bool.false_ne_true hsc
  refine ⟨hconn, hnostep, ?_⟩
  rintro ⟨hisel, hr⟩
  have main : ∀ x, Relation.ReflTransGen (uvStep M) i x → x = j →
      ∃ k, k ≠ i ∧ k ≠ j ∧ SameIsland M i k := by
    intro x hx
    induction hx with
    | refl =>
      intro he
      exact absurd he hne
    | tail hab hstep ihx =>
      rename_i b c
      intro he
      rw [he] at hstep
      by_cases hbi : b = i
      · rw [hbi] at hstep
        exact absurd hstep hnostep
      · by_cases hbj : b = j
        · exact ihx hbj
        · exact ⟨b, hbi, hbj, hisel, hab⟩
  exact main j hr rfl

/-- C8 witness (of the corrected claim) at the concrete seam mesh: faces 0 and
1 are far apart at every corner pair, hence never directly connected. -/
theorem seam_faces_not_directly_connected_witness :
    are_uvs_connected (seamMesh.faceAt 0) (seamMesh.faceAt 1) = false ∧
    ¬ uvStep seamMesh 0 1 ∧
    (SameIsland seamMesh 0 1 →
      ∃ k, k ≠ 0 ∧ k ≠ 1 ∧ SameIsland seamMesh 0 k) :=
  seam_faces_not_directly_connected seamMesh 0 1 (by decide)
    (by with_unfolding_all decide)

/-- C8 counterexample: in `seamMesh`, faces 0 and 1 are mesh-adjacent,
selected, and every pair of their corner UVs is at least `eps` apart — yet the
detector puts them in the SAME island `[0, 2, 1]` (joined through bridge face
2), refuting "the two faces end up in different islands". -/
theorem seam_faces_share_island_cex :
    (seamMesh.edges.any fun e => e.contains 0 && e.contains 1) = true ∧
    isSel seamMesh 0 = true ∧ isSel seamMesh 1 = true ∧
    ((seamMesh.faceAt 0).loops.all fun a =>
      (seamMesh.faceAt 1).loops.all fun b =>
        decide (eps ^ 2 ≤ uvDistSq a b)) = true ∧
    find_islands seamMesh = [[0, 2, 1]] := by
  refine ⟨?_, ?_, ?_, ?_, ?_⟩ <;> with_unfolding_all decide

lemma snapExecute_length (p : Prefs) (cell_index : ℕ) (objs : List Obj) :
    (snapExecute p cell_index objs).2.length = objs.length := by
  unfold snapExecute
  by_cases hb : p.grid_columns * p.grid_rows ≤ cell_index
  · rw [if_pos hb]
  · rw [if_neg hb]
    exact snapGo_length p _ _ objs

lemma snapExecute_elem (p : Prefs) (cell_index : ℕ) (objs : List Obj)
    (k : ℕ) :
    (snapExecute p cell_index objs).2.getD k defaultObj =
      objs.getD k defaultObj ∨
    ((objs.getD k defaultObj).isMesh = true ∧
      (snapExecute p cell_index objs).2.getD k defaultObj =
        ⟨(objs.getD k defaultObj).isMesh,
          snapMeshOp (target_x p.grid_columns cell_index)
            (target_y p.grid_columns p.grid_rows cell_index)
            (objs.getD k defaultObj).mesh⟩) := by
  unfold snapExecute
  by_cases hb : p.grid_columns * p.grid_rows ≤ cell_index
  · rw [if_pos hb]
    left
    rfl
  · rw [if_neg hb]
    exact snapGo_elem p _ _ objs k

/-- C9 (confirmed): frame property.  Both operators return an object list of
the same length; an object that is not a mesh is returned identical; and for
every mesh object, every face that is not selected keeps exactly its loops and
flags (only loops of selected faces of processed meshes are ever written).
The island detection itself is a pure function of the mesh in this embedding
and mutates nothing. -/
theorem operators_mutate_only_selected_faces (p : Prefs) (cell_index : ℕ)
    (direction : String) (objs : List Obj) (k : ℕ) :
    ((snapExecute p cell_index objs).2.length = objs.length ∧
      (offsetExecute p direction objs).2.length = objs.length) ∧
    ((objs.getD k defaultObj).isMesh = false →
      (snapExecute p cell_index objs).2.getD k defaultObj =
        objs.getD k defaultObj ∧
      (offsetExecute p direction objs).2.getD k defaultObj =
        objs.getD k defaultObj) ∧
    (∀ i, isSel (objs.getD k defaultObj).mesh i = false →
      ((snapExecute p cell_index objs).2.getD k defaultObj).mesh.faceAt i =
        (objs.getD k defaultObj).mesh.faceAt i ∧
      ((offsetExecute p direction objs).2.getD k defaultObj).mesh.faceAt i =
        (objs.getD k defaultObj).mesh.faceAt i) := by
  unfold offsetExecute
  refine ⟨⟨snapExecute_length p cell_index objs,
    offsetGo_length p direction objs⟩, ?_, ?_⟩
  · intro hnm
    constructor
    · rcases snapExecute_elem p cell_index objs k with h | h
      · exact h
      · rw [hnm] at h
        exact absurd h.1 (by simp)
    · rcases offsetGo_elem p direction objs k with h | h
      · exact h
      · rw [hnm] at h
        exact absurd h.1 (by simp)
  · intro i hsel
    constructor
    · rcases snapExecute_elem p cell_index objs k with h | h
      · rw [h]
      · rw [h.2]
        exact snapMeshOp_frame _ _ _ i hsel
    · rcases offsetGo_elem p direction objs k with h | h
      · rw [h]
      · rw [h.2]
        exact offsetMeshOp_frame _ _ _ _ i hsel

/-- C9 witness: a non-mesh object is returned untouched by both operators, and
an out-of-range (hence unselected) face index of a mesh object is unchanged by
the snap. -/
theorem operators_mutate_only_selected_faces_witness :
    ((snapExecute samplePrefs 0 [objNonMesh]).2.getD 0 defaultObj =
        [objNonMesh].getD 0 defaultObj ∧
      (offsetExecute samplePrefs "up" [objNonMesh]).2.getD 0 defaultObj =
        [objNonMesh].getD 0 defaultObj) ∧
    ((snapExecute samplePrefs 0 [objWithChannel]).2.getD 0
        defaultObj).mesh.faceAt 7 =
      ([objWithChannel].getD 0 defaultObj).mesh.faceAt 7 :=
  ⟨(operators_mutate_only_selected_faces samplePrefs 0 "up"
      [objNonMesh] 0).2.1 (by decide),
    ((operators_mutate_only_selected_faces samplePrefs 0 "up"
      [objWithChannel] 0).2.2 7 (by decide)).1⟩

end UVCellSnap
